import Mathlib

/-!
Shallow embedding of the bygg HTML/CSS document model, checked against its
natural-language specification.

Embedded source:
  - src/src/HTML/parser.cpp        (bygg::HTML::Parser::parse_html_string)
  - src/include/bygg/HTML/section.hpp  (Section::get_any, the filtered views,
                                        Section::npos)
  - src/include/bygg/CSS/property.hpp and src/src/CSS/property.cpp
                                   (CSS::Property accessors and mutators)

Machine integers are modelled as Nat; token depth is a nesting count assigned
by the upstream tokenizer (spec 4.5: depth 0 = top level), modelled as an
unbounded natural number. While loops are modelled by fuel-indexed
structural recursion, with fuel no smaller than the number of iterations
the loop can perform.
-/

namespace Bygg

/-- Ordered key/value attribute list carried by tokens, elements and
sections (bygg::HTML::Properties, order-preserving, duplicates allowed). -/
abbrev Properties := List (String × String)

/-- Leaf node payload: bygg::HTML::Element {tag, properties, data, type}.
The classification enum value is modelled as a Nat. -/
structure Element where
  tag : String
  properties : Properties
  data : String
  type : Nat
  deriving DecidableEq

/-- A child of a Section: std::variant<Element, Section> (section.hpp line 72).
A Section itself is a tag, a property list and an ordered combined child
list, so the variant is a nested inductive. -/
inductive HNode where
  | elem : Element → HNode
  | sect : String → Properties → List HNode → HNode

/-- Children of a node: the combined ordered child list for a Section,
empty for an Element leaf. -/
def HNode.childrenOf : HNode → List HNode
  | .elem _ => []
  | .sect _ _ c => c

/-- Tag of a node. -/
def HNode.tagOf : HNode → String
  | .elem e => e.tag
  | .sect t _ _ => t

/-- Token produced by the external tokenizer: {tag, properties, data, type,
depth} (spec 4.5); bygg::HTML::Parser reads list[i].tag, .properties,
.data, .type and .depth. -/
structure Token where
  tag : String
  properties : Properties
  data : String
  type : Nat
  depth : Nat
  deriving DecidableEq

/-- Default token used to totalize list indexing in the embedding; the
parser only ever indexes in bounds. -/
def defaultToken : Token := ⟨"", [], "", 0, 0⟩

/-- An open Section on the parser stack: its tag, properties, and the
children accumulated so far. In parser.cpp the stack holds Section
pointers into the tree under construction; since push_back only ever
targets the stack top, the pointer stack is equivalent to this frame stack
where a finished frame is attached to its parent when popped. -/
structure Frame where
  tag : String
  properties : Properties
  children : List HNode

/-- Close a frame into a Section node. -/
def finalizeFrame (f : Frame) : HNode := HNode.sect f.tag f.properties f.children

/-- One pop of the section stack: the popped frame is attached as the last
child of the frame below it (in the C++ original the child Section was
already attached at push time and mutated in place through the stack
pointer). A stack of size below 2 is left unchanged. -/
def popOnce : List Frame → List Frame
  | c :: p :: rest => { p with children := p.children ++ [finalizeFrame c] } :: rest
  | s => s

/-- Pop loop of parser.cpp lines 23-25, fuel-indexed: `while
(section_stack.size() > it.depth + 1) section_stack.pop();`. Each
iteration of the C++ loop shrinks the stack by one, so a fuel equal to the
initial stack size is never exhausted. -/
def popLoop (d : Nat) : Nat → List Frame → List Frame
  | 0, s => s
  | fuel + 1, s => if s.length > d + 1 then popLoop d fuel (popOnce s) else s

/-- Pop phase for a token of depth d (parser.cpp lines 23-25). -/
def popToDepth (d : Nat) (s : List Frame) : List Frame := popLoop d s.length s

/-- Loop body of parser.cpp lines 19-41 for token index i. `isC` models
`bygg::HTML::is_container` (tag-catalog lookup, external to src). The
unreachable empty-stack case returns the empty stack. -/
def step (isC : String → Bool) (list : List Token) (stack : List Frame) (i : Nat) : List Frame :=
  match popToDepth (list.getD i defaultToken).depth stack with
  | [] => []
  | cur :: rest =>
    if isC (list.getD i defaultToken).tag then
      Frame.mk (list.getD i defaultToken).tag (list.getD i defaultToken).properties [] :: cur :: rest
    else
      if 0 < i ∧ (list.getD i defaultToken).depth > (list.getD (i - 1) defaultToken).depth
          ∧ (list.getD i defaultToken).data = "" ∧ (list.getD (i - 1) defaultToken).data = "" then
        Frame.mk (list.getD i defaultToken).tag (list.getD i defaultToken).properties [] :: cur :: rest
      else
        { cur with children := cur.children ++
            [HNode.elem ⟨(list.getD i defaultToken).tag, (list.getD i defaultToken).properties,
              (list.getD i defaultToken).data, (list.getD i defaultToken).type⟩] } :: rest

/-- Stack state just before processing token n (after tokens 0..n-1):
seeded with the synthetic root frame for Section(Tag::Empty,
make_properties()) of parser.cpp line 13. -/
def stackBefore (isC : String → Bool) (list : List Token) (n : Nat) : List Frame :=
  ((List.range list.length).take n).foldl (step isC list) [Frame.mk "" [] []]

/-- Attach every still-open frame to its parent (fuel-indexed), yielding
the bottom (root) frame; in the C++ original all attachments already
happened in place, so returning `container` at parser.cpp line 43
corresponds to this collapse. -/
def collapseLoop : Nat → List Frame → Frame
  | 0, s => s.headD (Frame.mk "" [] [])
  | fuel + 1, s =>
    match s with
    | [] => Frame.mk "" [] []
    | [f] => f
    | c :: p :: rest => collapseLoop fuel ({ p with children := p.children ++ [finalizeFrame c] } :: rest)

/-- Collapse a whole stack to its bottom frame. -/
def collapseAll (s : List Frame) : Frame := collapseLoop s.length s

/-- bygg::HTML::Parser::parse_html_string (parser.cpp lines 12-44), after
the external tokenizer produced `list`. -/
def parse_html_string (isC : String → Bool) (list : List Token) : HNode :=
  finalizeFrame (collapseAll ((List.range list.length).foldl (step isC list) [Frame.mk "" [] []]))

/-- Identity of a frame ignoring its accumulated children: the tag and
the properties. Popping and collapsing may add children to a frame but
never change its identity. -/
def frameSig (f : Frame) : String × Properties := (f.tag, f.properties)

/-- Bottom (root) frame of a parser stack (the last entry; the stack is
kept top-first). -/
def bottomOf : List Frame → Frame
  | [] => Frame.mk "" [] []
  | [f] => f
  | _ :: p :: rest => bottomOf (p :: rest)

/-- Observable state of a bygg::HTML::Section (section.hpp lines 35, 868-875):
the tag, properties, the combined child list `members`, and the two
mutable type-filtered caches `elements` and `sections` that the view
methods refill. The caches may hold arbitrary stale contents. The
`sections` cache is modelled as a list of (already finalized) Section
nodes. -/
structure SectionS where
  tag : String
  properties : Properties
  members : List HNode
  elements : List Element
  sections : List HNode

/-- Element-filter loop shared by every element view method (section.hpp
lines 121-250): scan `members` in order and keep the Element alternatives. -/
def elementsOf : List HNode → List Element
  | [] => []
  | HNode.elem e :: rest => e :: elementsOf rest
  | HNode.sect _ _ _ :: rest => elementsOf rest

/-- Section-filter loop shared by every section view method (section.hpp
lines 255-380): scan `members` in order and keep the Section alternatives. -/
def sectionsOf : List HNode → List HNode
  | [] => []
  | HNode.elem _ :: rest => sectionsOf rest
  | HNode.sect t p c :: rest => HNode.sect t p c :: sectionsOf rest

/-- An iterator into one of the caches is modelled as the updated Section
state paired with an offset into the refilled cache; a reverse iterator's
offset counts from the back (offset k denotes position length - 1 - k). -/
abbrev ViewIter := SectionS × Nat

/-- Section::element_begin (section.hpp lines 121-129): clear and refill
the `elements` cache from `members`, return its begin. -/
def element_begin (s : SectionS) : ViewIter :=
  ({ s with elements := elementsOf s.members }, 0)

/-- Section::element_end (section.hpp lines 134-142): clear and refill the
`elements` cache from `members`, return its end. -/
def element_end (s : SectionS) : ViewIter :=
  ({ s with elements := elementsOf s.members }, (elementsOf s.members).length)

/-- Const overload Section::element_begin() const (section.hpp lines
147-155): same refill, returns cbegin. -/
def element_begin_const (s : SectionS) : ViewIter :=
  ({ s with elements := elementsOf s.members }, 0)

/-- Const overload Section::element_end() const (section.hpp lines
160-168): same refill, returns cend. -/
def element_end_const (s : SectionS) : ViewIter :=
  ({ s with elements := elementsOf s.members }, (elementsOf s.members).length)

/-- Section::element_rbegin (section.hpp lines 199-208): refill the
`elements` cache, return its rbegin (reverse offset 0, i.e. the last
cache entry). -/
def element_rbegin (s : SectionS) : ViewIter :=
  ({ s with elements := elementsOf s.members }, 0)

/-- Section::element_rend (section.hpp lines 213-222): refill the
`elements` cache; the source then returns `elements.rbegin()` (line 221),
not `elements.rend()`, so the reverse offset is 0 as well. -/
def element_rend (s : SectionS) : ViewIter :=
  ({ s with elements := elementsOf s.members }, 0)

/-- Section::section_begin (section.hpp lines 255-263): clear and refill
the `sections` cache from `members`, return its begin. -/
def section_begin (s : SectionS) : ViewIter :=
  ({ s with sections := sectionsOf s.members }, 0)

/-- Section::section_end (section.hpp lines 268-276): clear and refill the
`sections` cache from `members`, return its end. -/
def section_end (s : SectionS) : ViewIter :=
  ({ s with sections := sectionsOf s.members }, (sectionsOf s.members).length)

/-- Const overload Section::section_begin() const (section.hpp lines
281-289). -/
def section_begin_const (s : SectionS) : ViewIter :=
  ({ s with sections := sectionsOf s.members }, 0)

/-- Const overload Section::section_end() const (section.hpp lines
294-302). -/
def section_end_const (s : SectionS) : ViewIter :=
  ({ s with sections := sectionsOf s.members }, (sectionsOf s.members).length)

/-- The sequence visited by advancing a reverse iterator at reverse offset
b up to (excluding) one at reverse offset e over a cache: the reversed
cache from position b to position e. -/
def rviewVisited (cache : List Element) (b e : Nat) : List Element :=
  (cache.reverse.drop b).take (e - b)

/-- Error raised by positional accessors: bygg::out_of_range thrown at
section.hpp line 114. -/
inductive AccessError where
  | out_of_range : AccessError
  deriving DecidableEq

/-- Loop of Section::get_any (section.hpp lines 107-115): `for (size_type
i{}; i < members.size(); ++i) if (i == index) return members.at(i);` and
after the loop `throw out_of_range(...)`. The running cursor i walks the
list; the remaining suffix of `members` is the argument. -/
def get_any_from (index : Nat) : List HNode → Nat → Except AccessError HNode
  | [], _ => Except.error AccessError.out_of_range
  | x :: rest, i => if i = index then Except.ok x else get_any_from index rest (i + 1)

/-- Section::get_any(index) (section.hpp lines 107-115), reading only
`members`; the method performs no mutation. -/
def get_any (s : SectionS) (index : Nat) : Except AccessError HNode :=
  get_any_from index s.members 0

/-- Not-found sentinel: `static constexpr size_type npos = -1;`
(section.hpp line 435 and CSS/property.hpp line 25). size_type is the
unsigned size type of width w (bygg/types.hpp, not under src); converting
-1 to a w-bit unsigned type takes the representative of -1 modulo 2^w. -/
def npos (w : Nat) : Nat := (((-1 : Int)) % ((2 : Int) ^ w)).toNat

/-- bygg::CSS::Property: `std::pair<string_type, string_type> property`
(CSS/property.hpp line 19); first component is the key, second the value. -/
structure CSSProperty where
  key : String
  value : String
  deriving DecidableEq

/-- CSS::Property::get_key (property.cpp lines 10-12). -/
def CSSProperty.get_key (p : CSSProperty) : String := p.key

/-- CSS::Property::get_value (property.cpp lines 14-16). -/
def CSSProperty.get_value (p : CSSProperty) : String := p.value

/-- CSS::Property::set_key (property.cpp lines 26-28): assigns
property.first only. -/
def CSSProperty.set_key (p : CSSProperty) (k : String) : CSSProperty :=
  { p with key := k }

/-- CSS::Property::set_value (property.cpp lines 30-32): assigns
property.second only. -/
def CSSProperty.set_value (p : CSSProperty) (v : String) : CSSProperty :=
  { p with value := v }

end Bygg

namespace Bygg

-- Concrete inputs used by the claim theorems.

/-- Classifier for the C3 ambiguity case: both b and i are not containers
(the claim stipulates both tokens are void-classified). -/
def c3IsCont : String → Bool := fun _ => false

/-- Token list of the C3 ambiguity case: [(b, depth 0, text ""), (i, depth 1, text "")]. -/
def c3Tokens : List Token := [⟨"b", [], "", 0, 0⟩, ⟨"i", [], "", 0, 1⟩]

/-- Classifier for the C4 case: div is a container, p and span are not. -/
def c4IsCont : String → Bool := fun t => t == "div"

/-- Token list of the C4 case: [(div, depth 0), (p, depth 1, "x"), (span, depth 1, "y")]. -/
def c4Tokens : List Token := [⟨"div", [], "", 0, 0⟩, ⟨"p", [], "x", 0, 1⟩, ⟨"span", [], "y", 0, 1⟩]

/-- Single token at depth 1 used to refute the pop-to-equality reading of
the stack discipline: the stack has size 1 when it is reached. -/
def c2Tokens : List Token := [⟨"div", [], "", 0, 1⟩]

/-- Classifier for the C2 counterexample (div is a container). -/
def c2IsCont : String → Bool := fun t => t == "div"

/-- A sample element child used by the C5 and C7 concrete instances. -/
def sampleElem : Element := ⟨"p", [], "x", 0⟩

/-- A Section holding one Element child and one Section child, with
deliberately stale cache contents, used by the C5 witness and the C7
failing input. -/
def sampleSection : SectionS :=
  ⟨"div", [], [HNode.elem sampleElem, HNode.sect "span" [] []],
    [⟨"stale", [], "stale", 9⟩], [HNode.sect "stale" [] []]⟩

end Bygg

namespace Bygg

-- Helper lemmas shared by the claim theorems.

lemma popOnce_ne_nil : ∀ (s : List Frame), s ≠ [] → popOnce s ≠ [] := by
  intro s h
  cases s with
  | nil => exact absurd rfl h
  | cons c rest =>
    cases rest with
    | nil => exact h
    | cons p rest2 => exact List.cons_ne_nil _ _

lemma popLoop_ne_nil : ∀ (fuel d : Nat) (s : List Frame), s ≠ [] → popLoop d fuel s ≠ [] := by
  intro fuel
  induction fuel with
  | zero => intro d s h; exact h
  | succ n ih =>
    intro d s h
    unfold popLoop
    split
    · exact ih d (popOnce s) (popOnce_ne_nil s h)
    · exact h

lemma popToDepth_ne_nil : ∀ (d : Nat) (s : List Frame), s ≠ [] → popToDepth d s ≠ [] := by
  intro d s h
  exact popLoop_ne_nil s.length d s h

lemma step_ne_nil : ∀ (isC : String → Bool) (list : List Token) (s : List Frame) (i : Nat),
    s ≠ [] → step isC list s i ≠ [] := by
  intro isC list s i h
  unfold step
  cases hp : popToDepth (list.getD i defaultToken).depth s with
  | nil => exact absurd hp (popToDepth_ne_nil _ s h)
  | cons cur rest =>
    dsimp only
    split
    · exact List.cons_ne_nil _ _
    · split
      · exact List.cons_ne_nil _ _
      · exact List.cons_ne_nil _ _

lemma elementsOf_map_sublist : ∀ ms : List HNode, ((elementsOf ms).map HNode.elem).Sublist ms := by
  intro ms
  induction ms with
  | nil => exact List.Sublist.refl _
  | cons x rest ih =>
    cases x with
    | elem e => exact List.Sublist.cons₂ _ ih
    | sect t p c => exact List.Sublist.cons _ ih

lemma sectionsOf_sublist : ∀ ms : List HNode, (sectionsOf ms).Sublist ms := by
  intro ms
  induction ms with
  | nil => exact List.Sublist.refl _
  | cons x rest ih =>
    cases x with
    | elem e => exact List.Sublist.cons _ ih
    | sect t p c => exact List.Sublist.cons₂ _ ih

lemma get_any_from_eq : ∀ (members : List HNode) (index i : Nat), i ≤ index →
    get_any_from index members i =
      (match members.get? (index - i) with
        | some v => Except.ok v
        | none => Except.error AccessError.out_of_range) := by
  intro members
  induction members with
  | nil => intro index i _; rfl
  | cons x rest ih =>
    intro index i h
    by_cases hi : i = index
    · subst hi
      simp [get_any_from]
    · have h1 : i + 1 ≤ index := Nat.lt_of_le_of_ne h hi
      have h2 : index - i = (index - (i + 1)) + 1 := by omega
      simp only [get_any_from, if_neg hi]
      rw [ih index (i + 1) h1, h2, List.get?_cons_succ]

-- Claim theorems.

/-- C1: for every token list and index i, a token whose classification is
not Container is treated as an implicit container (a fresh Section frame
is pushed) exactly when i is at least 1, token i's depth strictly exceeds
token i-1's depth, and both tokens carry empty text; in every other case
(including every first token) a leaf Element is appended to the current
stack top. -/
theorem c1_implicit_container_heuristic :
    ∀ (isC : String → Bool) (list : List Token) (i : Nat) (stack : List Frame)
      (cur : Frame) (rest : List Frame),
      popToDepth (list.getD i defaultToken).depth stack = cur :: rest →
      isC (list.getD i defaultToken).tag = false →
      step isC list stack i =
        if 1 ≤ i ∧ (list.getD i defaultToken).depth > (list.getD (i - 1) defaultToken).depth
            ∧ (list.getD i defaultToken).data = "" ∧ (list.getD (i - 1) defaultToken).data = ""
        then Frame.mk (list.getD i defaultToken).tag (list.getD i defaultToken).properties []
              :: cur :: rest
        else { cur with children := cur.children ++
            [HNode.elem ⟨(list.getD i defaultToken).tag, (list.getD i defaultToken).properties,
              (list.getD i defaultToken).data, (list.getD i defaultToken).type⟩] } :: rest := by
  intro isC list i stack cur rest hpop hnc
  unfold step
  rw [hpop, hnc]
  rfl

/-- C1 witness: on the two-token b/i input the heuristic makes token 1 an
implicit container, and token 0 a leaf. -/
theorem c1_heuristic_witness :
    step c3IsCont c3Tokens [Frame.mk "" [] []] 1 =
      [Frame.mk "i" [] [], Frame.mk "" [] []]
    ∧ step c3IsCont c3Tokens [Frame.mk "" [] []] 0 =
      [Frame.mk "" [] [HNode.elem ⟨"b", [], "", 0⟩]] := by
  constructor
  · rw [c1_implicit_container_heuristic c3IsCont c3Tokens 1 [Frame.mk "" [] []]
      (Frame.mk "" [] []) [] rfl rfl]
    rfl
  · rw [c1_implicit_container_heuristic c3IsCont c3Tokens 0 [Frame.mk "" [] []]
      (Frame.mk "" [] []) [] rfl rfl]
    rfl

/-- C3 counterexample: on [(b, depth 0, text ""), (i, depth 1, text "")]
with both tags void-classified, the parser appends (b) as a leaf Element
of the root and then appends the Section (i) to the root as well, so (i)
ends up a sibling of (b), not nested under it. -/
theorem c3_nesting_counterexample :
    parse_html_string c3IsCont c3Tokens =
      HNode.sect "" [] [HNode.elem ⟨"b", [], "", 0⟩, HNode.sect "i" [] []]
    ∧ parse_html_string c3IsCont c3Tokens ≠
      HNode.sect "" [] [HNode.sect "b" [] [HNode.sect "i" [] []]] := by
  refine ⟨rfl, ?_⟩
  intro h
  rw [show parse_html_string c3IsCont c3Tokens =
      HNode.sect "" [] [HNode.elem ⟨"b", [], "", 0⟩, HNode.sect "i" [] []] from rfl] at h
  injection h with h1 h2 h3
  injection h3 with h4 h5
  exact HNode.noConfusion h4

/-- C3 amended: on the two-token b/i input the heuristic makes (i) itself
an (empty) Section, but appends it to the current stack top, which is
still the root because (b) was already appended as a leaf Element; the
result is the sibling pair [Element(b), Section(i)] under the root. -/
theorem c3_sibling_amended :
    parse_html_string c3IsCont c3Tokens =
      HNode.sect "" [] [HNode.elem ⟨"b", [], "", 0⟩, HNode.sect "i" [] []] := rfl

/-- C4: tokens [(div, depth 0), (p, depth 1, "x"), (span, depth 1, "y")]
with div Container-classified yield a root whose single child is the
Section div holding exactly the two Element leaves (p, "x") and
(span, "y") in that order. -/
theorem c4_container_with_leaves :
    parse_html_string c4IsCont c4Tokens =
      HNode.sect "" [] [HNode.sect "div" []
        [HNode.elem ⟨"p", [], "x", 0⟩, HNode.elem ⟨"span", [], "y", 0⟩]] := rfl

/-- C5: get_any returns the index-th entry of the combined child list when
the index is in range and raises out_of_range otherwise; it reads only
the members list. -/
theorem c5_get_any_total_access :
    ∀ (tag : String) (props : Properties) (members : List HNode)
      (ec : List Element) (sc : List HNode) (index : Nat),
      (∀ h : index < members.length,
        get_any ⟨tag, props, members, ec, sc⟩ index = Except.ok (members.get ⟨index, h⟩))
      ∧ (members.length ≤ index →
        get_any ⟨tag, props, members, ec, sc⟩ index = Except.error AccessError.out_of_range) := by
  intro tag props members ec sc index
  have hbase := get_any_from_eq members index 0 (Nat.zero_le _)
  constructor
  · intro h
    unfold get_any
    rw [hbase]
    simp only [Nat.sub_zero]
    rw [List.get?_eq_get h]
  · intro h
    unfold get_any
    rw [hbase]
    simp only [Nat.sub_zero]
    rw [List.get?_eq_none.mpr h]

/-- C5 witness: on a section holding two children, index 0 returns the
first child and index 5 raises out_of_range. -/
theorem c5_get_any_witness :
    get_any sampleSection 0 = Except.ok (HNode.elem sampleElem)
    ∧ get_any sampleSection 5 = Except.error AccessError.out_of_range := by
  constructor
  · exact (c5_get_any_total_access "div" [] [HNode.elem sampleElem, HNode.sect "span" [] []]
      [⟨"stale", [], "stale", 9⟩] [HNode.sect "stale" [] []] 0).1 (by decide)
  · exact (c5_get_any_total_access "div" [] [HNode.elem sampleElem, HNode.sect "span" [] []]
      [⟨"stale", [], "stale", 9⟩] [HNode.sect "stale" [] []] 5).2 (by decide)

/-- C6: every element view and section view call refills its cache from
the current combined child list, whatever the caches held before, and the
materialized snapshot is exactly the type-filtered subsequence of the
combined list in combined order. -/
theorem c6_filtered_views_recompute :
    ∀ (tag : String) (props : Properties) (members : List HNode)
      (ec : List Element) (sc : List HNode),
      (element_begin ⟨tag, props, members, ec, sc⟩).1.elements = elementsOf members
      ∧ (element_end ⟨tag, props, members, ec, sc⟩).1.elements = elementsOf members
      ∧ (element_begin_const ⟨tag, props, members, ec, sc⟩).1.elements = elementsOf members
      ∧ (element_end_const ⟨tag, props, members, ec, sc⟩).1.elements = elementsOf members
      ∧ (section_begin ⟨tag, props, members, ec, sc⟩).1.sections = sectionsOf members
      ∧ (section_end ⟨tag, props, members, ec, sc⟩).1.sections = sectionsOf members
      ∧ (section_begin_const ⟨tag, props, members, ec, sc⟩).1.sections = sectionsOf members
      ∧ (section_end_const ⟨tag, props, members, ec, sc⟩).1.sections = sectionsOf members
      ∧ ((elementsOf members).map HNode.elem).Sublist members
      ∧ (sectionsOf members).Sublist members := by
  intro tag props members ec sc
  exact ⟨rfl, rfl, rfl, rfl, rfl, rfl, rfl, rfl,
    elementsOf_map_sublist members, sectionsOf_sublist members⟩

/-- C7: the range delimited by element_rbegin and element_rend is empty
for every section, because element_rend returns the cache's rbegin
(section.hpp line 221); on the sample section the forward element view is
the nonempty [sampleElem], so the reverse view fails to enumerate it. -/
theorem c7_reverse_element_view_is_empty :
    (∀ s : SectionS,
      rviewVisited ((element_rbegin s).1.elements) (element_rbegin s).2 (element_rend s).2 = [])
    ∧ elementsOf sampleSection.members = [sampleElem] := by
  refine ⟨?_, rfl⟩
  intro s
  rfl

/-- C8: the not-found sentinel is -1 converted to the w-bit unsigned size
type, that is 2 to the w minus 1, and it differs from every valid
position of any container whose size is below that bound. -/
theorem c8_npos_is_all_ones :
    ∀ w : Nat, npos w = 2 ^ w - 1
      ∧ ∀ size i : Nat, size < 2 ^ w - 1 → i < size → i ≠ npos w := by
  intro w
  have h2 : (0 : Int) < 2 ^ w := by positivity
  have hmod : ((-1 : Int)) % ((2 : Int) ^ w) = 2 ^ w - 1 := by
    have h1 : ((-1 : Int) + 2 ^ w * 1) % ((2 : Int) ^ w) = (-1 : Int) % ((2 : Int) ^ w) :=
      Int.add_mul_emod_self_left (-1) ((2 : Int) ^ w) 1
    have h3 : ((-1 : Int) + 2 ^ w * 1) = 2 ^ w - 1 := by ring
    rw [h3] at h1
    rw [← h1]
    exact Int.emod_eq_of_lt (by omega) (by omega)
  have hnp : npos w = 2 ^ w - 1 := by
    unfold npos
    rw [hmod]
    have hcast : ((2 : Int) ^ w) = ((2 ^ w : Nat) : Int) := by push_cast; ring
    rw [hcast]
    omega
  exact ⟨hnp, fun size i hs hi => by rw [hnp]; omega⟩

/-- C8 witness: at width 8 the sentinel is 255 and position 1 of a
3-element container is not the sentinel. -/
theorem c8_npos_witness : npos 8 = 2 ^ 8 - 1 ∧ (1 : Nat) ≠ npos 8 :=
  ⟨(c8_npos_is_all_ones 8).1, (c8_npos_is_all_ones 8).2 3 1 (by decide) (by decide)⟩

lemma popLoop_length : ∀ (fuel d : Nat) (s : List Frame), s.length ≤ fuel →
    (popLoop d fuel s).length = min s.length (d + 1) := by
  intro fuel
  induction fuel with
  | zero =>
    intro d s h
    have hnil : s = [] := List.eq_nil_of_length_eq_zero (Nat.le_zero.mp h)
    subst hnil
    simp [popLoop]
  | succ n ih =>
    intro d s h
    unfold popLoop
    split
    · rename_i hgt
      cases s with
      | nil => simp at hgt
      | cons c rest =>
        cases rest with
        | nil => simp at hgt
        | cons p rest2 =>
          have hlen : (popOnce (c :: p :: rest2)).length = rest2.length + 1 := by
            simp [popOnce]
          have hle : (popOnce (c :: p :: rest2)).length ≤ n := by
            rw [hlen]
            simp only [List.length_cons] at h
            omega
          rw [ih d _ hle, hlen]
          simp only [List.length_cons] at hgt ⊢
          omega
    · rename_i hng
      omega

lemma popToDepth_length : ∀ (d : Nat) (s : List Frame),
    (popToDepth d s).length = min s.length (d + 1) := by
  intro d s
  exact popLoop_length s.length d s (Nat.le_refl _)

lemma bottom_sig_retop : ∀ (cur : Frame) (ch : List HNode) (rest : List Frame),
    frameSig (bottomOf ({ cur with children := ch } :: rest)) = frameSig (bottomOf (cur :: rest)) := by
  intro cur ch rest
  cases rest with
  | nil => rfl
  | cons r rest2 => rfl

lemma bottom_sig_popOnce : ∀ s : List Frame,
    frameSig (bottomOf (popOnce s)) = frameSig (bottomOf s) := by
  intro s
  match s with
  | [] => rfl
  | [c] => rfl
  | c :: p :: rest => exact bottom_sig_retop p _ rest

lemma bottom_sig_popLoop : ∀ (fuel d : Nat) (s : List Frame),
    frameSig (bottomOf (popLoop d fuel s)) = frameSig (bottomOf s) := by
  intro fuel
  induction fuel with
  | zero => intro d s; rfl
  | succ n ih =>
    intro d s
    unfold popLoop
    split
    · exact (ih d (popOnce s)).trans (bottom_sig_popOnce s)
    · rfl

lemma bottom_sig_popToDepth : ∀ (d : Nat) (s : List Frame),
    frameSig (bottomOf (popToDepth d s)) = frameSig (bottomOf s) := by
  intro d s
  exact bottom_sig_popLoop s.length d s

lemma bottom_sig_step : ∀ (isC : String → Bool) (list : List Token) (s : List Frame) (i : Nat),
    s ≠ [] → frameSig (bottomOf (step isC list s i)) = frameSig (bottomOf s) := by
  intro isC list s i h
  unfold step
  cases hp : popToDepth (list.getD i defaultToken).depth s with
  | nil => exact absurd hp (popToDepth_ne_nil _ s h)
  | cons cur rest =>
    have hbase : frameSig (bottomOf (cur :: rest)) = frameSig (bottomOf s) := by
      rw [← hp]
      exact bottom_sig_popToDepth _ s
    dsimp only
    split
    · exact hbase
    · split
      · exact hbase
      · exact (bottom_sig_retop cur _ rest).trans hbase

lemma foldl_step_preserves : ∀ (isC : String → Bool) (list : List Token) (l : List Nat)
    (acc : List Frame), acc ≠ [] →
    l.foldl (step isC list) acc ≠ []
      ∧ frameSig (bottomOf (l.foldl (step isC list) acc)) = frameSig (bottomOf acc) := by
  intro isC list l
  induction l with
  | nil => intro acc h; exact ⟨h, rfl⟩
  | cons i l ih =>
    intro acc h
    have hstep : step isC list acc i ≠ [] := step_ne_nil isC list acc i h
    have hrec := ih (step isC list acc i) hstep
    exact ⟨hrec.1, hrec.2.trans (bottom_sig_step isC list acc i h)⟩

lemma collapseLoop_sig : ∀ (fuel : Nat) (s : List Frame), s ≠ [] → s.length ≤ fuel →
    frameSig (collapseLoop fuel s) = frameSig (bottomOf s) := by
  intro fuel
  induction fuel with
  | zero =>
    intro s h hlen
    cases s with
    | nil => exact absurd rfl h
    | cons c rest => simp at hlen
  | succ n ih =>
    intro s h hlen
    cases s with
    | nil => exact absurd rfl h
    | cons c rest =>
      cases rest with
      | nil => rfl
      | cons p rest2 =>
        have hlen2 : ({ p with children := p.children ++ [finalizeFrame c] } :: rest2).length ≤ n := by
          simp only [List.length_cons] at hlen ⊢
          omega
        have hrec := ih ({ p with children := p.children ++ [finalizeFrame c] } :: rest2)
          (List.cons_ne_nil _ _) hlen2
        exact hrec.trans (bottom_sig_retop p _ rest2)

/-- C2 counterexample: with the single token (div, depth 1) the stack has
size 1 when the pop phase runs and still has size 1 afterwards, which is
not depth + 1 = 2; the loop only pops while the size exceeds depth + 1,
it cannot raise the size to depth + 1. -/
theorem c2_pop_equality_counterexample :
    (popToDepth ((c2Tokens.getD 0 defaultToken).depth) (stackBefore c2IsCont c2Tokens 0)).length
      ≠ (c2Tokens.getD 0 defaultToken).depth + 1 := by decide

/-- C2 amended: the stack is seeded with exactly the synthetic root frame
with empty tag; the pop phase leaves the stack at size min(previous size,
depth + 1) (it pops only while the size exceeds depth + 1); a
Container-classified token appends a new empty Section under the
resulting stack top and pushes it so that it becomes the current Section;
and the function returns the root Section carrying the empty tag, whose
children are the document's top-level nodes. -/
theorem c2_stack_discipline :
    (∀ (isC : String → Bool) (list : List Token), stackBefore isC list 0 = [Frame.mk "" [] []])
    ∧ (∀ (d : Nat) (s : List Frame), (popToDepth d s).length = min s.length (d + 1))
    ∧ (∀ (isC : String → Bool) (list : List Token) (i : Nat) (s : List Frame)
        (cur : Frame) (rest : List Frame),
        popToDepth (list.getD i defaultToken).depth s = cur :: rest →
        isC (list.getD i defaultToken).tag = true →
        step isC list s i =
          Frame.mk (list.getD i defaultToken).tag (list.getD i defaultToken).properties []
            :: cur :: rest)
    ∧ (∀ (isC : String → Bool) (list : List Token),
        ∃ ch : List HNode, parse_html_string isC list = HNode.sect "" [] ch) := by
  refine ⟨fun _ _ => rfl, popToDepth_length, ?_, ?_⟩
  · intro isC list i s cur rest hpop hc
    unfold step
    rw [hpop, hc]
    rfl
  · intro isC list
    have hfold := foldl_step_preserves isC list (List.range list.length)
      [Frame.mk "" [] []] (List.cons_ne_nil _ _)
    have hsig : frameSig (collapseAll ((List.range list.length).foldl (step isC list)
        [Frame.mk "" [] []])) = ("", []) := by
      have hcol := collapseLoop_sig
        ((List.range list.length).foldl (step isC list) [Frame.mk "" [] []]).length
        ((List.range list.length).foldl (step isC list) [Frame.mk "" [] []])
        hfold.1 (Nat.le_refl _)
      exact hcol.trans hfold.2
    refine ⟨(collapseAll ((List.range list.length).foldl (step isC list)
      [Frame.mk "" [] []])).children, ?_⟩
    have ht := congrArg Prod.fst hsig
    have hpr := congrArg Prod.snd hsig
    unfold parse_html_string finalizeFrame
    rw [show (collapseAll ((List.range list.length).foldl (step isC list)
        [Frame.mk "" [] []])).tag = "" from ht,
      show (collapseAll ((List.range list.length).foldl (step isC list)
        [Frame.mk "" [] []])).properties = [] from hpr]

/-- C2 witness: on the C4 input the container token div is pushed on top
of the popped stack and becomes the current Section. -/
theorem c2_discipline_witness :
    step c4IsCont c4Tokens [Frame.mk "" [] []] 0 =
      [Frame.mk "div" [] [], Frame.mk "" [] []] := by
  rw [c2_stack_discipline.2.2.1 c4IsCont c4Tokens 0 [Frame.mk "" [] []]
    (Frame.mk "" [] []) [] rfl rfl]
  rfl

/-- C9: the parser stack is non-empty at every point where its top is
read: it is non-empty before each token, the pop loop maps non-empty
stacks to non-empty stacks (its guard size > depth + 1 with depth + 1 at
least 1 never pops the last frame), and the synthetic root with empty tag
stays at the bottom throughout. -/
theorem c9_stack_never_empty :
    (∀ (isC : String → Bool) (list : List Token) (n : Nat), stackBefore isC list n ≠ [])
    ∧ (∀ (d : Nat) (s : List Frame), s ≠ [] → popToDepth d s ≠ [])
    ∧ (∀ (isC : String → Bool) (list : List Token) (n : Nat),
        popToDepth ((list.getD n defaultToken).depth) (stackBefore isC list n) ≠ [])
    ∧ (∀ (isC : String → Bool) (list : List Token) (n : Nat),
        frameSig (bottomOf (stackBefore isC list n)) = ("", [])) := by
  have hbefore : ∀ (isC : String → Bool) (list : List Token) (n : Nat),
      stackBefore isC list n ≠ []
        ∧ frameSig (bottomOf (stackBefore isC list n)) = ("", []) := by
    intro isC list n
    have h := foldl_step_preserves isC list ((List.range list.length).take n)
      [Frame.mk "" [] []] (List.cons_ne_nil _ _)
    exact ⟨h.1, h.2⟩
  refine ⟨fun isC list n => (hbefore isC list n).1, popToDepth_ne_nil, ?_, ?_⟩
  · intro isC list n
    exact popToDepth_ne_nil _ _ (hbefore isC list n).1
  · intro isC list n
    exact (hbefore isC list n).2

/-- C9 witness: the pop phase of a depth-0 token on the singleton root
stack leaves the stack non-empty. -/
theorem c9_nonempty_witness : popToDepth 0 [Frame.mk "" [] []] ≠ [] :=
  c9_stack_never_empty.2.1 0 [Frame.mk "" [] []] (List.cons_ne_nil _ _)

/-- C10: set_key rewrites only the key of a CSS property and set_value
rewrites only the value; the other component is unchanged. -/
theorem c10_property_setters_frame :
    ∀ (p : CSSProperty) (k v : String),
      (CSSProperty.get_value (CSSProperty.set_key p k) = CSSProperty.get_value p
        ∧ CSSProperty.get_key (CSSProperty.set_key p k) = k)
      ∧ (CSSProperty.get_key (CSSProperty.set_value p v) = CSSProperty.get_key p
        ∧ CSSProperty.get_value (CSSProperty.set_value p v) = v) := by
  intro p k v
  exact ⟨⟨rfl, rfl⟩, ⟨rfl, rfl⟩⟩

end Bygg
